import Mathlib

/-!
Verification of the ttservice transcription pipeline core.

Shallow embedding of:
- `SmartChunker.process` chunk planning (src/app/services/mlx_pipeline/smart_chunking.py)
- `MLXTranscriber._remove_overlap`, `_merge_chunks`, `_transcribe_chunk_thread`,
  checkpoint resume in `transcribe_directory`, and
  `HybridMLXTranscriber._merge_results` (src/app/services/mlx_pipeline/transcription_hybrid.py)
- the job-ledger operations (src/app/database.py)
- the `ProcessManager` singleton protocol and orphan check (src/lib/process_manager.py)

Texts are `List Char`; durations and rates are `ℚ`; timestamps are `ℤ` seconds.
-/

/-! ## Python text primitives -/

-- Whitespace set of Python str.split / str.strip (ASCII part, which is all the code uses).
def pyIsSpace (c : Char) : Bool :=
  c == ' ' || c == '\t' || c == '\n' || c == '\r' || c == Char.ofNat 11 || c == Char.ofNat 12

-- Python " ".join(s.split()): split on whitespace runs, drop empties, rejoin with one space.
def pyNorm (s : List Char) : List Char :=
  List.intercalate [' '] ((s.splitOnP pyIsSpace).filter (fun t => !t.isEmpty))

-- Python s.lstrip()
def pyStripLeft (s : List Char) : List Char := s.dropWhile pyIsSpace

-- Python s.strip()
def pyStrip (s : List Char) : List Char :=
  ((s.dropWhile pyIsSpace).reverse.dropWhile pyIsSpace).reverse

-- Python s[-n:] for 1 ≤ n ≤ len(s)
def takeLast (s : List Char) (n : ℕ) : List Char := s.drop (s.length - n)

-- Occurrence counting used to state the merge claims.
def occursAt (pat s : List Char) (i : ℕ) : Bool := (s.drop i).take pat.length == pat

def countOccur (s pat : List Char) : ℕ :=
  ((List.range (s.length + 1)).filter (occursAt pat s)).length

def containsSub (s pat : List Char) : Bool :=
  (List.range (s.length + 1)).any (occursAt pat s)

/-! ## ChunkPlanner: SmartChunker.process, smart_chunking.py lines 160-186 -/

structure ChunkPlan where
  padStart : ℚ
  padEnd : ℚ
  coreStart : ℚ
  coreEnd : ℚ
deriving DecidableEq

-- num_chunks = math.ceil(total_duration / self.chunk_duration)   (line 162)
def numChunks (D C : ℚ) : ℕ := (Int.ceil (D / C)).toNat

-- start/end/core_start/core_end for index i                      (lines 173-182)
def planChunk (D C O : ℚ) (i : ℕ) : ChunkPlan :=
  { padStart := max 0 ((i : ℚ) * C - O)
    padEnd := min D (((i : ℚ) + 1) * C + O)
    coreStart := (i : ℚ) * C
    coreEnd := min D (((i : ℚ) + 1) * C) }

-- the loop `for i in range(num_chunks)`                          (line 169)
def chunkList (D C O : ℚ) : List ChunkPlan :=
  (List.range (numChunks D C)).map (planChunk D C O)

/-! ## ResultMerger: MLXTranscriber, transcription_hybrid.py -/

structure ChunkRes where
  success : Bool
  chunkNumber : ℕ
  text : List Char
  error : Option (List Char)
deriving DecidableEq

-- _remove_overlap scan loop: `for overlap_len in range(max_check, min_overlap - 1, -1)`
-- with break at the first (longest) whitespace-normalized match  (lines 462-473).
def findOverlapLen (prevText currText : List Char) (minOv : ℕ) : ℕ → ℕ
  | 0 => 0
  | L + 1 =>
    if L + 1 < minOv then 0
    else if pyNorm (takeLast prevText (L + 1)) = pyNorm (currText.take (L + 1)) then L + 1
    else findOverlapLen prevText currText minOv L

-- _remove_overlap (lines 442-479); min_overlap defaults to 20 at the call site.
def removeOverlap (prevText currText : List Char) (minOv : ℕ) : List Char :=
  if prevText = [] ∨ currText = [] then currText
  else
    let maxCheck := min (min prevText.length currText.length) 200
    let best := findOverlapLen prevText currText minOv maxCheck
    if 0 < best then pyStripLeft (currText.drop best) else currText

def nn : List Char := ['\n', '\n']

-- the `for idx, chunk in enumerate(chunks)` loop of _merge_chunks (lines 423-438)
def mergeChunksAux : List ChunkRes → ℕ → List (List Char) → List (List Char)
  | [], _, parts => parts
  | c :: rest, idx, parts =>
    let text := pyStrip c.text
    if text = [] then mergeChunksAux rest (idx + 1) parts
    else if idx = 0 then mergeChunksAux rest (idx + 1) (parts ++ [text])
    else
      let prev := parts.getLast?.getD []
      mergeChunksAux rest (idx + 1) (parts ++ [removeOverlap prev text 20])

-- _merge_chunks (lines 392-440); `if not chunks_meta` is true for None and for [].
def mergeChunks (chunks : List ChunkRes) (chunksMeta : Option (List Unit)) : List Char :=
  if chunks = [] then []
  else
    match chunksMeta with
    | none => List.intercalate nn ((chunks.map (fun c => c.text)).filter (fun t => !t.isEmpty))
    | some ms =>
      if ms = [] then
        List.intercalate nn ((chunks.map (fun c => c.text)).filter (fun t => !t.isEmpty))
      else
        List.intercalate nn (mergeChunksAux chunks 0 [])

-- HybridMLXTranscriber._merge_results (lines 927-934)
def mergeResults (results : List ChunkRes) : List Char :=
  List.intercalate ['\n']
    ((results.filter (fun r => r.success && !r.text.isEmpty)).map (fun r => pyStrip r.text))

/-! ## Per-chunk worker and statistics -/

structure EngineOut where
  text : List Char
  segments : List (List Char)
deriving DecidableEq

-- _transcribe_chunk_thread (lines 144-174): the engine either returns a result or raises.
def transcribeChunkThread (outcome : Except (List Char) EngineOut) (chunkNumber : ℕ) : ChunkRes :=
  match outcome with
  | Except.ok r => { success := true, chunkNumber := chunkNumber, text := pyStrip r.text, error := none }
  | Except.error e => { success := false, chunkNumber := chunkNumber, text := [], error := some e }

-- one worker invocation per chunk, chunk numbers from 1 (enumerate(chunk_files, 1))
def runChunksFrom (idx : ℕ) : List (Except (List Char) EngineOut) → List ChunkRes
  | [] => []
  | e :: rest => transcribeChunkThread e idx :: runChunksFrom (idx + 1) rest

def runChunks (engines : List (Except (List Char) EngineOut)) : List ChunkRes :=
  runChunksFrom 1 engines

-- successful_chunks counts the results whose text field is nonempty (line 340)
def successfulChunks (results : List ChunkRes) : ℕ :=
  (results.filter (fun r => !r.text.isEmpty)).length

-- success_rate = successful_chunks / total_chunks * 100 if total_chunks > 0 else 0  (line 346)
def successRate (results : List ChunkRes) (totalChunks : ℕ) : ℚ :=
  if 0 < totalChunks then (successfulChunks results : ℚ) / (totalChunks : ℚ) * 100 else 0

/-! ## Checkpoint resume: transcribe_directory lines 239-262, 325-327, 380-383 -/

-- processed_chunks is a JSON object keyed by chunk stem; dict lookup.
def ckptLookup (ckpt : List (List Char × ChunkRes)) (n : List Char) : Option ChunkRes :=
  (ckpt.find? (fun p => p.1 == n)).map (fun p => p.2)

-- the skip loop (lines 252-262): checkpointed chunks go straight to results,
-- the rest become chunks_to_process; indices are 1-based.
def resumeSplit (ckpt : List (List Char × ChunkRes)) :
    List (List Char) → ℕ → List (ℕ × ChunkRes) × List (List Char × ℕ)
  | [], _ => ([], [])
  | n :: rest, idx =>
    let p := resumeSplit ckpt rest (idx + 1)
    match ckptLookup ckpt n with
    | some r => ((idx, r) :: p.1, p.2)
    | none => (p.1, (n, idx) :: p.2)

-- results.sort(key=lambda x: x[0])  (line 326); indices are distinct so order is unique.
def insertByIdx (p : ℕ × ChunkRes) : List (ℕ × ChunkRes) → List (ℕ × ChunkRes)
  | [] => [p]
  | q :: rest => if p.1 < q.1 then p :: q :: rest else q :: insertByIdx p rest

def sortByIdx : List (ℕ × ChunkRes) → List (ℕ × ChunkRes)
  | [] => []
  | p :: rest => insertByIdx p (sortByIdx rest)

/-- Resume run of transcribe_directory: reused checkpoint results plus one engine
call per remaining chunk, sorted by index; the third component records that the
checkpoint file is removed at the end (lines 380-383, unconditional). -/
def runResume (names : List (List Char)) (ckpt : List (List Char × ChunkRes))
    (engine : List Char → ChunkRes) : List (ℕ × ChunkRes) × List (List Char) × Bool :=
  let p := resumeSplit ckpt names 1
  let fresh := p.2.map (fun q => (q.2, engine q.1))
  (sortByIdx (p.1 ++ fresh), p.2.map (fun q => q.1), true)

/-! ## Job ledger: database.py -/

structure JobRow where
  id : ℕ
  status : String
  progress : ℚ
  errorMessage : Option String
  pid : Option ℤ
  logFile : Option String
  heartbeat : Option ℤ
  startedAt : Option ℤ
  completedAt : Option ℤ
  outputPath : Option String
  transcript : Option String
  elapsedSeconds : ℚ
  speed : ℚ
deriving DecidableEq

-- update_job_status (lines 136-180); assignments are applied in order, the
-- terminal-status `pid = NULL` comes after the optional `pid = ?`.
def updateJobStatus (now : ℤ) (row : JobRow) (status : String) (progress : Option ℚ)
    (errorMessage : Option String) (pid : Option ℤ) (logFile : Option String) : JobRow :=
  let r1 := { row with status := status }
  let r2 := match progress with | some p => { r1 with progress := p } | none => r1
  let r3 := match errorMessage with | some e => { r2 with errorMessage := some e } | none => r2
  let r4 := match pid with | some p => { r3 with pid := some p } | none => r3
  let r5 := match logFile with | some f => { r4 with logFile := some f } | none => r4
  if status = "processing" then { r5 with startedAt := some now, heartbeat := some now }
  else if status = "completed" ∨ status = "failed" ∨ status = "cancelled" then
    { r5 with completedAt := some now, pid := none }
  else r5

-- complete_job (lines 183-203): does not touch pid.
def completeJob (now : ℤ) (row : JobRow) (outputPath : String) (transcript : String)
    (elapsedSeconds : ℚ) (speed : ℚ) : JobRow :=
  { row with
    status := "completed"
    outputPath := some outputPath
    transcript := some transcript
    elapsedSeconds := elapsedSeconds
    speed := speed
    progress := 100
    completedAt := some now }

-- fail_job (lines 206-216): does not touch pid.
def failJob (now : ℤ) (row : JobRow) (errorMessage : String) : JobRow :=
  { row with status := "failed", errorMessage := some errorMessage, completedAt := some now }

-- cancel_job (lines 310-321)
def cancelJob (now : ℤ) (row : JobRow) (reason : String) : JobRow :=
  { row with
    status := "cancelled"
    errorMessage := some reason
    completedAt := some now
    pid := none }

-- orphan predicate of get_orphaned_jobs (lines 295-307)
def isStale (now timeout : ℤ) (r : JobRow) : Bool :=
  r.status == "processing" &&
    (match r.heartbeat with
     | none => true
     | some hb => decide (hb < now - timeout))

def getOrphanedJobs (now timeoutSeconds : ℤ) (db : List JobRow) : List JobRow :=
  db.filter (isStale now timeoutSeconds)

def noHeartbeatMsg : String := "Process terminated unexpectedly (no heartbeat)"

-- cleanup_stale_jobs (lines 333-347): 120 s timeout; per-row UPDATE by id
-- (ids are unique, so this is the row map below); returns the orphan count.
def cleanupStaleJobs (now : ℤ) (db : List JobRow) : List JobRow × ℕ :=
  (db.map (fun r =>
      if isStale now 120 r then
        { r with
          status := "failed"
          errorMessage := some noHeartbeatMsg
          completedAt := some now
          pid := none }
      else r),
   (getOrphanedJobs now 120 db).length)

-- ProcessManager._check_orphans (process_manager.py lines 395-423):
-- SIGTERM the recorded pid of 60 s-stale jobs not in the local map, then
-- cleanup_stale_jobs on the ledger.
def checkOrphans (now : ℤ) (db : List JobRow) (localJobs : List ℕ) : List ℤ × List JobRow :=
  let orphaned := getOrphanedJobs now 60 db
  let killed := (orphaned.filter (fun j => j.pid.isSome && !(localJobs.contains j.id))).filterMap
    (fun j => j.pid)
  (killed, (cleanupStaleJobs now db).1)

/-! ## ProcessManager singleton protocol (process_manager.py lines 74-101, 454-463) -/

structure PMObj where
  inited : Bool
  initCount : ℕ
deriving DecidableEq

structure PMWorld where
  heap : List PMObj
  instId : Option ℕ
  globalPM : Option ℕ
deriving DecidableEq

-- ProcessManager.__new__: allocate only when cls._instance is None.
def pmNew (w : PMWorld) : ℕ × PMWorld :=
  match w.instId with
  | some i => (i, w)
  | none =>
    let i := w.heap.length
    (i, { w with heap := w.heap ++ [{ inited := false, initCount := 0 }], instId := some i })

-- ProcessManager.__init__ body: guarded by self._initialized; initCount counts
-- how often the state map and heartbeat thread were (re)created.
def pmInitBody (o : PMObj) : PMObj :=
  if o.inited then o else { inited := true, initCount := o.initCount + 1 }

-- ProcessManager(): __new__ then __init__ on the returned object.
def pmConstruct (w : PMWorld) : ℕ × PMWorld :=
  let p := pmNew w
  let o := p.2.heap.getD p.1 { inited := false, initCount := 0 }
  (p.1, { p.2 with heap := p.2.heap.set p.1 (pmInitBody o) })

-- get_process_manager (lines 458-463): module-level cache of a constructed instance.
def getProcessManager (w : PMWorld) : ℕ × PMWorld :=
  match w.globalPM with
  | some i => (i, w)
  | none =>
    let p := pmConstruct w
    (p.1, { p.2 with globalPM := some p.1 })

def pmStep (w : PMWorld) (op : Bool) : ℕ × PMWorld :=
  if op then pmConstruct w else getProcessManager w

def runPM : PMWorld → List Bool → List ℕ × PMWorld
  | w, [] => ([], w)
  | w, op :: rest =>
    let p := pmStep w op
    let q := runPM p.2 rest
    (p.1 :: q.1, q.2)

def freshPMWorld : PMWorld := { heap := [], instId := none, globalPM := none }

-- A concrete ledger row used by the concrete instances below.
def sampleRow : JobRow :=
  { id := 1
    status := "processing"
    progress := 0
    errorMessage := none
    pid := some 42
    logFile := none
    heartbeat := some 90
    startedAt := some 0
    completedAt := none
    outputPath := none
    transcript := none
    elapsedSeconds := 0
    speed := 0 }

-- Concrete resume scenario used in the witness instances below.
def wNames : List (List Char) := ["chunk_001".toList, "chunk_002".toList, "chunk_003".toList]

def wStored : ChunkRes := { success := true, chunkNumber := 2, text := "stored".toList, error := none }

def wCkpt : List (List Char × ChunkRes) := [("chunk_002".toList, wStored)]

def wEngine (n : List Char) : ChunkRes :=
  { success := true, chunkNumber := 0, text := n, error := none }

-- Engine outcomes that count towards successful_chunks: a non-raising call
-- whose stripped text is nonempty.
def engineTextNonempty (e : Except (List Char) EngineOut) : Bool :=
  match e with
  | Except.ok r => !(pyStrip r.text).isEmpty
  | Except.error _ => false

-- Concrete engine outcomes and chunk results for the witness instances below.
def wEngines : List (Except (List Char) EngineOut) :=
  [Except.ok { text := "hello".toList, segments := [] }, Except.error ("boom".toList)]

def wChunks9 : List ChunkRes :=
  [{ success := true, chunkNumber := 1, text := "first part".toList, error := none },
   { success := true, chunkNumber := 2, text := "second part".toList, error := none }]

def wResults9 : List ChunkRes :=
  [{ success := true, chunkNumber := 1, text := " ok ".toList, error := none },
   { success := false, chunkNumber := 2, text := [], error := some ("e".toList) }]

/-! ## Helper lemmas -/

lemma padEnd_via_coreEnd (D C O : ℚ) (hO : 0 ≤ O) (i : ℕ) :
    min D (((i : ℚ) + 1) * C + O) = min D (min D (((i : ℚ) + 1) * C) + O) := by
  rcases le_total (((i : ℚ) + 1) * C) D with h | h
  · rw [min_eq_right h]
  · rw [min_eq_left h, min_eq_left (le_add_of_nonneg_right hO),
      min_eq_left (h.trans (le_add_of_nonneg_right hO))]

lemma coreRegion_disjoint (D C O : ℚ) (hC : 0 < C) {i j : ℕ} (hij : i < j) (x : ℚ)
    (h2 : x < (planChunk D C O i).coreEnd) (h3 : (planChunk D C O j).coreStart ≤ x) :
    False := by
  have hcast : ((i : ℚ) + 1) ≤ (j : ℚ) := by exact_mod_cast hij
  have hle : ((i : ℚ) + 1) * C ≤ (j : ℚ) * C := mul_le_mul_of_nonneg_right hcast hC.le
  have h2' : x < ((i : ℚ) + 1) * C := lt_of_lt_of_le h2 (min_le_right _ _)
  have h3' : (j : ℚ) * C ≤ x := h3
  linarith

/-! ## Claim theorems -/

/-- Claim C1: for every duration D > 0, core window C > 0 and overlap O ≥ 0,
SmartChunker.process plans exactly N = ceil(D/C) chunks; chunk i has
core_start = i*C, core_end = min(D, (i+1)*C), padded start = max(0, i*C - O)
and padded end = min(D, core_end + O); the core regions exactly tile [0, D)
with no gaps and no overlaps. -/
theorem c1_chunk_planner (D C O : ℚ) (hD : 0 < D) (hC : 0 < C) (hO : 0 ≤ O) :
    (chunkList D C O).length = (Int.ceil (D / C)).toNat
    ∧ (∀ i, i < numChunks D C →
        (planChunk D C O i).coreStart = (i : ℚ) * C ∧
        (planChunk D C O i).coreEnd = min D (((i : ℚ) + 1) * C) ∧
        (planChunk D C O i).padStart = max 0 ((i : ℚ) * C - O) ∧
        (planChunk D C O i).padEnd = min D ((planChunk D C O i).coreEnd + O))
    ∧ (∀ x : ℚ, (0 ≤ x ∧ x < D) ↔
        ∃ i, i < numChunks D C ∧
          (planChunk D C O i).coreStart ≤ x ∧ x < (planChunk D C O i).coreEnd)
    ∧ (∀ i j, i < numChunks D C → j < numChunks D C → i ≠ j → ∀ x : ℚ,
        (planChunk D C O i).coreStart ≤ x → x < (planChunk D C O i).coreEnd →
        ¬((planChunk D C O j).coreStart ≤ x ∧ x < (planChunk D C O j).coreEnd)) := by
  refine ⟨?_, ?_, ?_, ?_⟩
  · simp [chunkList, numChunks]
  · intro i _
    refine ⟨rfl, rfl, rfl, ?_⟩
    show min D (((i : ℚ) + 1) * C + O) = _
    rw [padEnd_via_coreEnd D C O hO i]
    rfl
  · intro x
    constructor
    · rintro ⟨hx0, hxD⟩
      have hk0 : 0 ≤ ⌊x / C⌋ := Int.floor_nonneg.mpr (div_nonneg hx0 hC.le)
      have hcast : ((⌊x / C⌋.toNat : ℕ) : ℚ) = ((⌊x / C⌋ : ℤ) : ℚ) := by
        exact_mod_cast congrArg (fun z : ℤ => (z : ℚ)) (Int.toNat_of_nonneg hk0)
      refine ⟨⌊x / C⌋.toNat, ?_, ?_, ?_⟩
      · have h1 : ((⌊x / C⌋ : ℤ) : ℚ) ≤ x / C := Int.floor_le _
        have h2 : x / C < D / C := (div_lt_div_iff_of_pos_right hC).mpr hxD
        have h3 : ⌊x / C⌋ < ⌈D / C⌉ := Int.lt_ceil.mpr (lt_of_le_of_lt h1 h2)
        show ⌊x / C⌋.toNat < numChunks D C
        unfold numChunks
        omega
      · show ((⌊x / C⌋.toNat : ℕ) : ℚ) * C ≤ x
        rw [hcast]
        have h1 : ((⌊x / C⌋ : ℤ) : ℚ) ≤ x / C := Int.floor_le _
        calc ((⌊x / C⌋ : ℤ) : ℚ) * C ≤ (x / C) * C := mul_le_mul_of_nonneg_right h1 hC.le
          _ = x := div_mul_cancel₀ x hC.ne'
      · show x < min D ((((⌊x / C⌋.toNat : ℕ) : ℚ) + 1) * C)
        refine lt_min hxD ?_
        rw [hcast]
        have h1 : x / C < ((⌊x / C⌋ : ℤ) : ℚ) + 1 := Int.lt_floor_add_one _
        have := (div_lt_iff₀ hC).mp h1
        linarith
    · rintro ⟨i, _, h1, h2⟩
      have h0 : (0 : ℚ) ≤ (i : ℚ) * C := mul_nonneg (Nat.cast_nonneg i) hC.le
      exact ⟨le_trans h0 h1, lt_of_lt_of_le h2 (min_le_left _ _)⟩
  · intro i j _ _ hne x hi1 hi2 hj
    rcases lt_or_gt_of_ne hne with h | h
    · exact coreRegion_disjoint D C O hC h x hi2 hj.1
    · exact coreRegion_disjoint D C O hC h x hj.2 hi1

/-- Witness for C1 at the end-to-end example D = 63, C = 20, O = 3. -/
theorem c1_chunk_planner_witness :
    (0 : ℚ) < 63 ∧ (0 : ℚ) < 20 ∧ (0 : ℚ) ≤ 3 ∧
    ((chunkList 63 20 3).length = (Int.ceil ((63 : ℚ) / 20)).toNat
    ∧ (∀ i, i < numChunks 63 20 →
        (planChunk 63 20 3 i).coreStart = (i : ℚ) * 20 ∧
        (planChunk 63 20 3 i).coreEnd = min 63 (((i : ℚ) + 1) * 20) ∧
        (planChunk 63 20 3 i).padStart = max 0 ((i : ℚ) * 20 - 3) ∧
        (planChunk 63 20 3 i).padEnd = min 63 ((planChunk 63 20 3 i).coreEnd + 3))
    ∧ (∀ x : ℚ, (0 ≤ x ∧ x < 63) ↔
        ∃ i, i < numChunks 63 20 ∧
          (planChunk 63 20 3 i).coreStart ≤ x ∧ x < (planChunk 63 20 3 i).coreEnd)
    ∧ (∀ i j, i < numChunks 63 20 → j < numChunks 63 20 → i ≠ j → ∀ x : ℚ,
        (planChunk 63 20 3 i).coreStart ≤ x → x < (planChunk 63 20 3 i).coreEnd →
        ¬((planChunk 63 20 3 j).coreStart ≤ x ∧ x < (planChunk 63 20 3 j).coreEnd))) :=
  ⟨by norm_num, by norm_num, by norm_num,
    c1_chunk_planner 63 20 3 (by norm_num) (by norm_num) (by norm_num)⟩

lemma findOverlapLen_eq_zero (prevText currText : List Char) (minOv N : ℕ)
    (h : ∀ L, minOv ≤ L → L ≤ N → pyNorm (takeLast prevText L) ≠ pyNorm (currText.take L)) :
    findOverlapLen prevText currText minOv N = 0 := by
  induction N with
  | zero => rfl
  | succ n ih =>
    unfold findOverlapLen
    by_cases h1 : n + 1 < minOv
    · simp [h1]
    · have hne := h (n + 1) (by omega) (le_refl _)
      simp only [if_neg h1, if_neg hne]
      exact ih (fun L hL1 hL2 => h L hL1 (by omega))

lemma intercalate_pair (s a b : List Char) : List.intercalate s [a, b] = a ++ s ++ b := by
  simp [List.intercalate, List.intersperse]

/-- Claim C2 counterexample: with texts A = "This is the end of sentence" and
B = "end of sentence continues", the shared phrase (15 chars) is below the
20-char minimum scan bound, so _merge_chunks keeps both copies and
"end of sentence" occurs twice, not once. -/
theorem c2_counterexample :
    mergeChunks [⟨true, 1, "This is the end of sentence".toList, none⟩,
        ⟨true, 2, "end of sentence continues".toList, none⟩] (some [()])
      = "This is the end of sentence\n\nend of sentence continues".toList
    ∧ countOccur ("This is the end of sentence\n\nend of sentence continues".toList)
        ("end of sentence".toList) = 2 := by decide

/-- Claim C2 (amended): when the shared span between consecutive chunk texts
reaches the 20-character minimum scan bound (here "real end of sentence"),
_merge_chunks removes the duplicate and the merged text contains
"end of sentence" exactly once, followed by "continues"; a shared phrase
shorter than the bound (such as "end of sentence" alone) is kept twice. -/
theorem c2_overlap_merge_amended :
    mergeChunks [⟨true, 1, "We now reach the real end of sentence".toList, none⟩,
        ⟨true, 2, "real end of sentence continues here".toList, none⟩] (some [()])
      = "We now reach the real end of sentence\n\ncontinues here".toList
    ∧ countOccur ("We now reach the real end of sentence\n\ncontinues here".toList)
        ("end of sentence".toList) = 1
    ∧ containsSub ("We now reach the real end of sentence\n\ncontinues here".toList)
        ("end of sentence\n\ncontinues".toList) = true := by decide

/-- Claim C3 counterexample: with chunk metadata present, _merge_chunks strips
the single chunk text, so a text with outer whitespace is not returned
unchanged. -/
theorem c3_counterexample :
    mergeChunks [⟨true, 1, " hi ".toList, none⟩] (some [()]) = "hi".toList
    ∧ "hi".toList ≠ " hi ".toList := by decide

/-- Claim C3 (amended): on a single-chunk list _merge_chunks returns the text
unchanged when called without metadata (None or empty); with metadata present
it returns the whitespace-stripped text, hence is the identity exactly on
already-stripped texts. -/
theorem c3_single_chunk_amended (c : ChunkRes) (m : List Unit) (hm : m ≠ []) :
    mergeChunks [c] none = c.text
    ∧ mergeChunks [c] (some []) = c.text
    ∧ mergeChunks [c] (some m) = pyStrip c.text := by
  refine ⟨?_, ?_, ?_⟩
  · by_cases h : c.text = [] <;> simp [mergeChunks, h, List.intercalate]
  · by_cases h : c.text = [] <;> simp [mergeChunks, h, List.intercalate]
  · by_cases h : pyStrip c.text = [] <;>
      simp [mergeChunks, mergeChunksAux, hm, h, List.intercalate]

/-- Witness for the amended C3 at a concrete chunk and metadata list. -/
theorem c3_witness :
    ([()] : List Unit) ≠ [] ∧
    (mergeChunks [⟨true, 1, " hi ".toList, none⟩] none = " hi ".toList
    ∧ mergeChunks [⟨true, 1, " hi ".toList, none⟩] (some []) = " hi ".toList
    ∧ mergeChunks [⟨true, 1, " hi ".toList, none⟩] (some [()]) = pyStrip " hi ".toList) :=
  ⟨by decide, c3_single_chunk_amended ⟨true, 1, " hi ".toList, none⟩ [()] (by decide)⟩

/-- Claim C4 counterexample: _merge_chunks strips each chunk text before
appending, so a trailing space of A is dropped and the merged text is not
A + boundary + B verbatim. -/
theorem c4_counterexample :
    mergeChunks [⟨true, 1, "alpha ".toList, none⟩, ⟨true, 2, "beta".toList, none⟩] (some [()])
      = "alpha\n\nbeta".toList
    ∧ "alpha\n\nbeta".toList ≠ "alpha ".toList ++ nn ++ "beta".toList := by decide

/-- Claim C4 (amended): for consecutive nonempty chunk texts A and B already
free of outer whitespace that share no whitespace-normalized common
suffix/head match at any length within the scan bounds (200 down to 20),
the merged text is A followed by the separating boundary followed by B,
with no characters dropped. -/
theorem c4_no_overlap_amended (A B : List Char) (m : List Unit) (hm : m ≠ [])
    (hA : pyStrip A = A) (hB : pyStrip B = B) (hA0 : A ≠ []) (hB0 : B ≠ [])
    (hno : ∀ L, 20 ≤ L → L ≤ min (min A.length B.length) 200 →
        pyNorm (takeLast A L) ≠ pyNorm (B.take L)) :
    mergeChunks [⟨true, 1, A, none⟩, ⟨true, 2, B, none⟩] (some m) = A ++ nn ++ B := by
  have hro : removeOverlap A B 20 = B := by
    unfold removeOverlap
    rw [if_neg (by simp [hA0, hB0])]
    simp only [findOverlapLen_eq_zero A B 20 (min (min A.length B.length) 200) hno]
    simp
  simp [mergeChunks, hm, mergeChunksAux, hA, hB, hA0, hB0, hro, intercalate_pair]

/-- Witness for the amended C4 at concrete short texts (scan bound is empty). -/
theorem c4_witness :
    ([()] : List Unit) ≠ [] ∧ pyStrip "alpha".toList = "alpha".toList
    ∧ pyStrip "beta".toList = "beta".toList
    ∧ "alpha".toList ≠ ([] : List Char) ∧ "beta".toList ≠ ([] : List Char)
    ∧ mergeChunks [⟨true, 1, "alpha".toList, none⟩, ⟨true, 2, "beta".toList, none⟩] (some [()])
      = "alpha".toList ++ nn ++ "beta".toList :=
  ⟨by decide, by decide, by decide, by decide, by decide,
    c4_no_overlap_amended ("alpha".toList) ("beta".toList) [()] (by decide) (by decide)
      (by decide) (by decide) (by decide)
      (fun L hL1 hL2 => absurd (le_trans hL1 hL2) (by decide))⟩

/-- Claim C5 counterexample: complete_job and fail_job set a terminal status
but leave the pid column untouched, so a row that had a pid keeps it. -/
theorem c5_counterexample :
    (failJob 100 sampleRow "boom").status = "failed"
    ∧ (failJob 100 sampleRow "boom").pid = some 42
    ∧ (completeJob 100 sampleRow "out.txt" "text" 1 1).status = "completed"
    ∧ (completeJob 100 sampleRow "out.txt" "text" 1 1).pid = some 42 := by decide

/-- Claim C5 (amended): update_job_status with a terminal status and cancel_job
clear the pid column; complete_job and fail_job leave pid unchanged, so the
terminal-state-implies-pid-NULL invariant holds only for the first two
operations. -/
theorem c5_terminal_pid_amended (now : ℤ) (row : JobRow) (status : String)
    (progress : Option ℚ) (errorMessage : Option String) (pid : Option ℤ)
    (logFile : Option String) (reason err out tr : String) (el sp : ℚ)
    (hterm : status = "completed" ∨ status = "failed" ∨ status = "cancelled") :
    (updateJobStatus now row status progress errorMessage pid logFile).pid = none
    ∧ (cancelJob now row reason).pid = none
    ∧ (failJob now row err).pid = row.pid
    ∧ (completeJob now row out tr el sp).pid = row.pid := by
  refine ⟨?_, rfl, rfl, rfl⟩
  unfold updateJobStatus
  have hnp : status ≠ "processing" := by rcases hterm with h | h | h <;> simp [h]
  rw [if_neg hnp, if_pos hterm]

/-- Witness for the amended C5 at a concrete row and arguments. -/
theorem c5_witness :
    (("completed" : String) = "completed" ∨ ("completed" : String) = "failed"
      ∨ ("completed" : String) = "cancelled")
    ∧ ((updateJobStatus 100 sampleRow "completed" none none none none).pid = none
    ∧ (cancelJob 100 sampleRow "user").pid = none
    ∧ (failJob 100 sampleRow "err").pid = sampleRow.pid
    ∧ (completeJob 100 sampleRow "o" "t" 0 0).pid = sampleRow.pid) :=
  ⟨Or.inl rfl,
    c5_terminal_pid_amended 100 sampleRow "completed" none none none none "user" "err" "o" "t"
      0 0 (Or.inl rfl)⟩

lemma ckptLookup_isSome_iff (ckpt : List (List Char × ChunkRes)) (n : List Char) :
    (ckptLookup ckpt n).isSome = true ↔ n ∈ ckpt.map (fun p => p.1) := by
  unfold ckptLookup
  rw [show ∀ o : Option (List Char × ChunkRes),
      (Option.map (fun p => p.2) o).isSome = o.isSome from fun o => by cases o <;> rfl]
  rw [List.find?_isSome]
  constructor
  · rintro ⟨p, hp, hbeq⟩
    exact List.mem_map.mpr ⟨p, hp, by simpa using hbeq⟩
  · rintro h
    rcases List.mem_map.mp h with ⟨p, hp, hpe⟩
    exact ⟨p, hp, by simp [hpe]⟩

lemma find?_cons_pos (f : (List Char × ChunkRes) → Bool) (a : List Char × ChunkRes)
    (l : List (List Char × ChunkRes)) (h : f a = true) :
    List.find? f (a :: l) = some a := List.find?_cons_of_pos l h

lemma find?_cons_neg (f : (List Char × ChunkRes) → Bool) (a : List Char × ChunkRes)
    (l : List (List Char × ChunkRes)) (h : ¬ f a = true) :
    List.find? f (a :: l) = List.find? f l := List.find?_cons_of_neg l h

lemma ckptLookup_of_mem (ckpt : List (List Char × ChunkRes))
    (hk : (ckpt.map (fun p => p.1)).Nodup) (p : List Char × ChunkRes) (hp : p ∈ ckpt) :
    ckptLookup ckpt p.1 = some p.2 := by
  induction ckpt with
  | nil => cases hp
  | cons q rest ih =>
    rcases List.mem_cons.mp hp with h | h
    · subst h
      unfold ckptLookup
      rw [find?_cons_pos (fun r => r.1 == p.1) p rest (by simp)]
      rfl
    · have hk2 : (q.1 :: rest.map (fun p => p.1)).Nodup := by
        rw [List.map_cons] at hk; exact hk
      have hk' := List.nodup_cons.mp hk2
      have hq : ¬(q.1 == p.1) = true := by
        intro hbeq
        have hqe : q.1 = p.1 := eq_of_beq hbeq
        exact hk'.1 (by rw [hqe]; exact List.mem_map.mpr ⟨p, h, rfl⟩)
      have hrest := ih hk'.2 h
      unfold ckptLookup at hrest ⊢
      rw [find?_cons_neg (fun r => r.1 == p.1) q rest hq]
      exact hrest

lemma resumeSplit_todo_map (ckpt : List (List Char × ChunkRes)) (names : List (List Char)) :
    ∀ idx, ((resumeSplit ckpt names idx).2).map (fun q => q.1)
      = names.filter (fun n => (ckptLookup ckpt n).isNone) := by
  induction names with
  | nil => intro idx; rfl
  | cons n rest ih =>
    intro idx
    unfold resumeSplit
    cases h : ckptLookup ckpt n with
    | none => simp [h, List.filter, ih (idx + 1)]
    | some r => simp [h, List.filter, ih (idx + 1)]

lemma resumeSplit_reused_mem (ckpt : List (List Char × ChunkRes)) (names : List (List Char)) :
    ∀ idx n r, n ∈ names → ckptLookup ckpt n = some r →
      ∃ i, (i, r) ∈ (resumeSplit ckpt names idx).1 := by
  induction names with
  | nil => intro idx n r hn; cases hn
  | cons m rest ih =>
    intro idx n r hn hl
    rcases List.mem_cons.mp hn with h | h
    · subst h
      refine ⟨idx, ?_⟩
      unfold resumeSplit
      rw [hl]
      exact List.mem_cons_self _ _
    · rcases ih (idx + 1) n r h hl with ⟨i, hi⟩
      refine ⟨i, ?_⟩
      unfold resumeSplit
      cases hq : ckptLookup ckpt m with
      | none => simpa using hi
      | some q => exact List.mem_cons_of_mem _ hi

lemma length_filter_add_length_filter_not (l : List (List Char)) (p : List Char → Bool) :
    (l.filter p).length + (l.filter (fun a => !(p a))).length = l.length := by
  induction l with
  | nil => rfl
  | cons a rest ih =>
    by_cases h : p a = true <;> simp [List.filter, h] <;> omega

lemma insertByIdx_perm (p : ℕ × ChunkRes) (l : List (ℕ × ChunkRes)) :
    (insertByIdx p l).Perm (p :: l) := by
  induction l with
  | nil => exact List.Perm.refl _
  | cons q rest ih =>
    unfold insertByIdx
    by_cases h : p.1 < q.1
    · rw [if_pos h]
    · rw [if_neg h]
      exact (ih.cons q).trans (List.Perm.swap p q rest)

lemma sortByIdx_perm (l : List (ℕ × ChunkRes)) : (sortByIdx l).Perm l := by
  induction l with
  | nil => exact List.Perm.refl _
  | cons p rest ih => exact (insertByIdx_perm p (sortByIdx rest)).trans (ih.cons p)

/-- Claim C6: on restart with a checkpoint, the engine is invoked exactly for
the non-checkpointed chunks (M - N of M), every checkpointed chunk keeps its
stored result verbatim in the final (sorted) results, and the checkpoint file
is deleted at the end of the job. -/
theorem c6_checkpoint_resume (names : List (List Char)) (ckpt : List (List Char × ChunkRes))
    (engine : List Char → ChunkRes) (hnames : names.Nodup)
    (hk : (ckpt.map (fun p => p.1)).Nodup) (hsub : ∀ p ∈ ckpt, p.1 ∈ names) :
    (runResume names ckpt engine).2.1 = names.filter (fun n => (ckptLookup ckpt n).isNone)
    ∧ (runResume names ckpt engine).2.1.length + ckpt.length = names.length
    ∧ (∀ p ∈ ckpt, p.1 ∉ (runResume names ckpt engine).2.1)
    ∧ (∀ p ∈ ckpt, ∃ i, (i, p.2) ∈ (runResume names ckpt engine).1)
    ∧ (runResume names ckpt engine).2.2 = true := by
  have hcall : (runResume names ckpt engine).2.1
      = names.filter (fun n => (ckptLookup ckpt n).isNone) := resumeSplit_todo_map ckpt names 1
  refine ⟨hcall, ?_, ?_, ?_, rfl⟩
  · rw [hcall]
    have hsplit := length_filter_add_length_filter_not names
      (fun n => (ckptLookup ckpt n).isNone)
    have hconv : names.filter (fun n => !((ckptLookup ckpt n).isNone))
        = names.filter (fun n => decide (n ∈ ckpt.map (fun p => p.1))) := by
      refine List.filter_congr (fun n _ => ?_)
      by_cases hmem : n ∈ ckpt.map (fun p => p.1)
      · have h1 : (ckptLookup ckpt n).isSome = true := (ckptLookup_isSome_iff ckpt n).mpr hmem
        cases h : ckptLookup ckpt n with
        | none => rw [h] at h1; cases h1
        | some r => simp [h, hmem]
      · have h1 : (ckptLookup ckpt n).isSome = false := by
          rw [Bool.eq_false_iff]
          exact fun hs => hmem ((ckptLookup_isSome_iff ckpt n).mp hs)
        cases h : ckptLookup ckpt n with
        | none => simp [h, hmem]
        | some r => rw [h] at h1; cases h1
    have hnodupF : (names.filter (fun n => decide (n ∈ ckpt.map (fun p => p.1)))).Nodup :=
      hnames.filter _
    have htf : (names.filter (fun n => decide (n ∈ ckpt.map (fun p => p.1)))).toFinset
        = (ckpt.map (fun p => p.1)).toFinset := by
      ext x
      simp only [List.mem_toFinset, List.mem_filter, decide_eq_true_eq]
      constructor
      · rintro ⟨_, h2⟩; exact h2
      · intro h2
        refine ⟨?_, h2⟩
        rcases List.mem_map.mp h2 with ⟨p, hp, hpe⟩
        rw [← hpe]; exact hsub p hp
    have hlen : (names.filter (fun n => decide (n ∈ ckpt.map (fun p => p.1)))).length
        = ckpt.length := by
      rw [← List.toFinset_card_of_nodup hnodupF, htf, List.toFinset_card_of_nodup hk,
        List.length_map]
    rw [hconv, hlen] at hsplit
    exact hsplit
  · intro p hp hmemc
    rw [hcall] at hmemc
    have h2 := (List.mem_filter.mp hmemc).2
    rw [ckptLookup_of_mem ckpt hk p hp] at h2
    cases h2
  · intro p hp
    obtain ⟨i, hi⟩ := resumeSplit_reused_mem ckpt names 1 p.1 p.2 (hsub p hp)
      (ckptLookup_of_mem ckpt hk p hp)
    refine ⟨i, ?_⟩
    show (i, p.2) ∈ sortByIdx ((resumeSplit ckpt names 1).1 ++ _)
    exact (sortByIdx_perm _).mem_iff.mpr (List.mem_append_left _ hi)

/-- Witness for C6 at a concrete 3-chunk job with chunk 2 checkpointed. -/
theorem c6_witness :
    wNames.Nodup ∧ (wCkpt.map (fun p => p.1)).Nodup ∧ (∀ p ∈ wCkpt, p.1 ∈ wNames)
    ∧ ((runResume wNames wCkpt wEngine).2.1
        = wNames.filter (fun n => (ckptLookup wCkpt n).isNone)
    ∧ (runResume wNames wCkpt wEngine).2.1.length + wCkpt.length = wNames.length
    ∧ (∀ p ∈ wCkpt, p.1 ∉ (runResume wNames wCkpt wEngine).2.1)
    ∧ (∀ p ∈ wCkpt, ∃ i, (i, p.2) ∈ (runResume wNames wCkpt wEngine).1)
    ∧ (runResume wNames wCkpt wEngine).2.2 = true) :=
  ⟨by decide, by decide, by decide,
    c6_checkpoint_resume wNames wCkpt wEngine (by decide) (by decide) (by decide)⟩

/-- Claim C7: a ledger row that is processing, whose heartbeat is missing or
older than the staleness timeout (120 s in cleanup_stale_jobs), and whose job
is not tracked in the local process map, is marked failed with the fixed
diagnostic containing "no heartbeat" and its pid cleared, within one pass of
the orphan check. -/
theorem c7_orphan_reclaim (now : ℤ) (db : List JobRow) (localJobs : List ℕ) (row : JobRow)
    (hmem : row ∈ db) (hst : row.status = "processing")
    (hhb : row.heartbeat = none ∨ ∃ hb, row.heartbeat = some hb ∧ hb < now - 120)
    (hloc : row.id ∉ localJobs) :
    ({ row with
        status := "failed"
        errorMessage := some noHeartbeatMsg
        completedAt := some now
        pid := none } ∈ (checkOrphans now db localJobs).2)
    ∧ containsSub noHeartbeatMsg.toList ("no heartbeat".toList) = true := by
  refine ⟨?_, by decide⟩
  have hstale : isStale now 120 row = true := by
    unfold isStale
    rcases hhb with h | ⟨hb, h1, h2⟩
    · rw [hst, h]; rfl
    · rw [hst, h1]
      simp [h2]
  show _ ∈ (cleanupStaleJobs now db).1
  unfold cleanupStaleJobs
  refine List.mem_map.mpr ⟨row, hmem, ?_⟩
  rw [if_pos hstale]

/-- Witness for C7 at a concrete one-row ledger. -/
theorem c7_witness :
    sampleRow ∈ [sampleRow] ∧ sampleRow.status = "processing"
    ∧ (sampleRow.heartbeat = none ∨ ∃ hb, sampleRow.heartbeat = some hb ∧ hb < 1000 - 120)
    ∧ sampleRow.id ∉ ([] : List ℕ)
    ∧ (({ sampleRow with
          status := "failed"
          errorMessage := some noHeartbeatMsg
          completedAt := some 1000
          pid := none } ∈ (checkOrphans 1000 [sampleRow] []).2)
      ∧ containsSub noHeartbeatMsg.toList ("no heartbeat".toList) = true) :=
  ⟨List.mem_cons_self _ _, rfl, Or.inr ⟨90, rfl, by decide⟩, by decide,
    c7_orphan_reclaim 1000 [sampleRow] [] sampleRow (List.mem_cons_self _ _) rfl
      (Or.inr ⟨90, rfl, by decide⟩) (by decide)⟩

lemma runChunksFrom_length (idx : ℕ) (engines : List (Except (List Char) EngineOut)) :
    (runChunksFrom idx engines).length = engines.length := by
  induction engines generalizing idx with
  | nil => rfl
  | cons e rest ih => simp [runChunksFrom, ih (idx + 1)]

lemma runChunksFrom_getElem (idx : ℕ) (engines : List (Except (List Char) EngineOut)) (i : ℕ) :
    (runChunksFrom idx engines)[i]?
      = (engines[i]?).map (fun e => transcribeChunkThread e (idx + i)) := by
  induction engines generalizing idx i with
  | nil => simp [runChunksFrom]
  | cons e rest ih =>
    cases i with
    | zero => simp [runChunksFrom]
    | succ n =>
      have harith : idx + 1 + n = idx + (n + 1) := by omega
      simp [runChunksFrom, ih (idx + 1) n, harith]

lemma successfulChunks_runChunksFrom (idx : ℕ) (engines : List (Except (List Char) EngineOut)) :
    successfulChunks (runChunksFrom idx engines) = (engines.filter engineTextNonempty).length := by
  induction engines generalizing idx with
  | nil => rfl
  | cons e rest ih =>
    cases e with
    | ok r =>
      by_cases h : (pyStrip r.text).isEmpty = true <;>
        simp [runChunksFrom, successfulChunks, transcribeChunkThread, engineTextNonempty,
          List.filter, h] <;>
        simpa [successfulChunks] using ih (idx + 1)
    | error msg =>
      simp only [runChunksFrom, successfulChunks, transcribeChunkThread, engineTextNonempty]
      rw [show (List.filter engineTextNonempty (Except.error msg :: rest))
          = List.filter engineTextNonempty rest from by simp [engineTextNonempty]]
      simpa [successfulChunks, List.filter] using ih (idx + 1)

/-- Claim C8: a raising engine call never propagates: the worker records a
failure result with success = false, empty text and the error message; every
chunk still yields exactly one result, and the reported success rate is the
number of chunks with nonempty text over the total, times 100, each failed
chunk contributing nothing to the numerator. -/
theorem c8_chunk_failure_isolation (engines : List (Except (List Char) EngineOut))
    (h : engines ≠ []) :
    (runChunks engines).length = engines.length
    ∧ (∀ (i : ℕ) (e : List Char), engines[i]? = some (Except.error e) →
        (runChunks engines)[i]?
          = some { success := false, chunkNumber := i + 1, text := ([] : List Char), error := some e })
    ∧ successfulChunks (runChunks engines) = (engines.filter engineTextNonempty).length
    ∧ successRate (runChunks engines) engines.length
        = ((engines.filter engineTextNonempty).length : ℚ) / (engines.length : ℚ) * 100 := by
  refine ⟨runChunksFrom_length 1 engines, ?_, successfulChunks_runChunksFrom 1 engines, ?_⟩
  · intro i e he
    unfold runChunks
    rw [runChunksFrom_getElem 1 engines i, he]
    simp [transcribeChunkThread, Nat.add_comm]
  · unfold successRate runChunks
    rw [if_pos (List.length_pos.mpr h), successfulChunks_runChunksFrom 1 engines]

/-- Witness for C8 at one succeeding and one raising engine call. -/
theorem c8_witness :
    wEngines ≠ []
    ∧ ((runChunks wEngines).length = wEngines.length
    ∧ (∀ (i : ℕ) (e : List Char), wEngines[i]? = some (Except.error e) →
        (runChunks wEngines)[i]?
          = some { success := false, chunkNumber := i + 1, text := ([] : List Char), error := some e })
    ∧ successfulChunks (runChunks wEngines) = (wEngines.filter engineTextNonempty).length
    ∧ successRate (runChunks wEngines) wEngines.length
        = ((wEngines.filter engineTextNonempty).length : ℚ) / (wEngines.length : ℚ) * 100) :=
  ⟨List.cons_ne_nil _ _, c8_chunk_failure_isolation wEngines (List.cons_ne_nil _ _)⟩

/-- Claim C9: without chunk metadata (None or empty) _merge_chunks is the plain
blank-line-joined concatenation of the nonempty chunk texts, and
_merge_results is always the plain newline-joined concatenation of the
(stripped) nonempty chunk texts; no overlap detection or removal happens. -/
theorem c9_plain_concat (chunks results : List ChunkRes)
    (hres : ∀ r ∈ results, r.success = true ∨ r.text = []) :
    mergeChunks chunks none
      = List.intercalate nn ((chunks.map (fun c => c.text)).filter (fun t => !t.isEmpty))
    ∧ mergeChunks chunks (some [])
      = List.intercalate nn ((chunks.map (fun c => c.text)).filter (fun t => !t.isEmpty))
    ∧ mergeResults results
      = List.intercalate ['\n']
          ((results.filter (fun r => !r.text.isEmpty)).map (fun r => pyStrip r.text)) := by
  refine ⟨?_, ?_, ?_⟩
  · by_cases h : chunks = []
    · subst h; rfl
    · simp [mergeChunks, h]
  · by_cases h : chunks = []
    · subst h; rfl
    · simp [mergeChunks, h]
  · unfold mergeResults
    congr 1
    congr 1
    refine List.filter_congr (fun r hr => ?_)
    rcases hres r hr with h | h
    · simp [h]
    · simp [h]

/-- Witness for C9 at concrete chunk and result lists. -/
theorem c9_witness :
    (∀ r ∈ wResults9, r.success = true ∨ r.text = [])
    ∧ (mergeChunks wChunks9 none
      = List.intercalate nn ((wChunks9.map (fun c => c.text)).filter (fun t => !t.isEmpty))
    ∧ mergeChunks wChunks9 (some [])
      = List.intercalate nn ((wChunks9.map (fun c => c.text)).filter (fun t => !t.isEmpty))
    ∧ mergeResults wResults9
      = List.intercalate ['\n']
          ((wResults9.filter (fun r => !r.text.isEmpty)).map (fun r => pyStrip r.text))) :=
  ⟨by decide, c9_plain_concat wChunks9 wResults9 (by decide)⟩

lemma pmStep_fresh (op : Bool) :
    (pmStep freshPMWorld op).1 = 0
    ∧ (pmStep freshPMWorld op).2.heap = [{ inited := true, initCount := 1 }]
    ∧ (pmStep freshPMWorld op).2.instId = some 0
    ∧ ((pmStep freshPMWorld op).2.globalPM = none
        ∨ (pmStep freshPMWorld op).2.globalPM = some 0) := by
  cases op
  · exact ⟨by decide, by decide, by decide, Or.inr (by decide)⟩
  · exact ⟨by decide, by decide, by decide, Or.inl (by decide)⟩

lemma pmStep_good (w : PMWorld) (hh : w.heap = [{ inited := true, initCount := 1 }])
    (hi : w.instId = some 0) (hg : w.globalPM = none ∨ w.globalPM = some 0) (op : Bool) :
    (pmStep w op).1 = 0
    ∧ (pmStep w op).2.heap = [{ inited := true, initCount := 1 }]
    ∧ (pmStep w op).2.instId = some 0
    ∧ ((pmStep w op).2.globalPM = none ∨ (pmStep w op).2.globalPM = some 0) := by
  cases w with
  | mk heap instId globalPM =>
    simp only at hh hi
    subst hh
    subst hi
    rcases hg with hg | hg <;> simp only at hg <;> subst hg <;> cases op
    · exact ⟨by decide, by decide, by decide, Or.inr (by decide)⟩
    · exact ⟨by decide, by decide, by decide, Or.inl (by decide)⟩
    · exact ⟨by decide, by decide, by decide, Or.inr (by decide)⟩
    · exact ⟨by decide, by decide, by decide, Or.inr (by decide)⟩

lemma runPM_good (ops : List Bool) :
    ∀ w : PMWorld, w.heap = [{ inited := true, initCount := 1 }] → w.instId = some 0 →
      (w.globalPM = none ∨ w.globalPM = some 0) →
      (∀ i ∈ (runPM w ops).1, i = 0)
      ∧ (runPM w ops).2.heap = [{ inited := true, initCount := 1 }]
      ∧ (runPM w ops).2.instId = some 0
      ∧ ((runPM w ops).2.globalPM = none ∨ (runPM w ops).2.globalPM = some 0) := by
  induction ops with
  | nil =>
    intro w h1 h2 h3
    exact ⟨fun i hi => absurd hi (List.not_mem_nil i), h1, h2, h3⟩
  | cons op rest ih =>
    intro w h1 h2 h3
    have hstep := pmStep_good w h1 h2 h3 op
    have hrec := ih (pmStep w op).2 hstep.2.1 hstep.2.2.1 hstep.2.2.2
    have hshape : runPM w (op :: rest)
        = ((pmStep w op).1 :: (runPM (pmStep w op).2 rest).1, (runPM (pmStep w op).2 rest).2) :=
      rfl
    rw [hshape]
    refine ⟨?_, hrec.2.1, hrec.2.2.1, hrec.2.2.2⟩
    intro i hi
    rcases List.mem_cons.mp hi with h | h
    · rw [h]; exact hstep.1
    · exact hrec.1 i h

/-- Claim C10: the ProcessManager singleton protocol — any nonempty sequence of
ProcessManager() constructions and get_process_manager() calls starting from a
fresh module state returns the single instance (heap id 0) every time, and the
instance state is initialized exactly once (initCount stays 1, so the tracked
map and heartbeat thread are never re-created). -/
theorem c10_singleton (ops : List Bool) (h : ops ≠ []) :
    (∀ i ∈ (runPM freshPMWorld ops).1, i = 0)
    ∧ (runPM freshPMWorld ops).2.heap = [{ inited := true, initCount := 1 }]
    ∧ (runPM freshPMWorld ops).2.instId = some 0 := by
  cases ops with
  | nil => exact absurd rfl h
  | cons op rest =>
    have hstep := pmStep_fresh op
    have hrec := runPM_good rest (pmStep freshPMWorld op).2 hstep.2.1 hstep.2.2.1 hstep.2.2.2
    have hshape : runPM freshPMWorld (op :: rest)
        = ((pmStep freshPMWorld op).1 :: (runPM (pmStep freshPMWorld op).2 rest).1,
           (runPM (pmStep freshPMWorld op).2 rest).2) := rfl
    rw [hshape]
    refine ⟨?_, hrec.2.1, hrec.2.2.1⟩
    intro i hi
    rcases List.mem_cons.mp hi with h2 | h2
    · rw [h2]; exact hstep.1
    · exact hrec.1 i h2

/-- Witness for C10: two constructions followed by a get_process_manager call. -/
theorem c10_witness :
    ([true, true, false] : List Bool) ≠ []
    ∧ ((∀ i ∈ (runPM freshPMWorld [true, true, false]).1, i = 0)
    ∧ (runPM freshPMWorld [true, true, false]).2.heap = [{ inited := true, initCount := 1 }]
    ∧ (runPM freshPMWorld [true, true, false]).2.instId = some 0) :=
  ⟨List.cons_ne_nil _ _, c10_singleton [true, true, false] (List.cons_ne_nil _ _)⟩
